import Mathlib

/-!
# Verification of the `prsly` parser-combinator core

A shallow embedding of `src/prsly/prsly.js` (the minimalist parser-combinator
library) together with theorems settling the specification claims about it.

## Modelling conventions

* A JS `Stream` built by `from_string` / `from_list` is, observationally, the
  list of values that its generator will produce.  `head()` is the first
  element (`null`, modelled as `Option.none`, at the end of the stream) and
  `tail()` is the rest of the list; at the end of the stream `tail()` is the
  JS value `null` — the *same* value as the failure sentinel `NO_MATCH` — so
  a stream-or-null is `Option (List α)` with `none` playing both roles,
  exactly as in the JS code where `NO_MATCH = null`.
* A parser is the JS function signature `(stream) => [stream, value]`:
  `List α → Option (List α) × Option β`.  The first component is the
  remaining stream (`none` = `NO_MATCH`); the second is the produced value
  (`none` = `NO_VALUE`, JS `undefined`).
* One collapse: in `match`, when the stream is at its end and the test
  accepts `null`, the JS code returns `[null, null]` — a `null` *value*
  alongside the `NO_MATCH` stream — whereas on a test failure it returns
  `[null, undefined]`.  No combinator of the library distinguishes the two:
  every combinator checks the stream component first, and the
  `asFluent` wrapper (which wraps every library parser) rewrites the
  value to `NO_VALUE` whenever the inner value is `NO_VALUE` and drops the
  pair's value on `NO_MATCH` propagation.  The model therefore returns
  `(none, none)` in both cases.
* The memoization behaviour of `Stream.prototype.head` / `tail` (claim C2)
  is modelled separately and faithfully by `Cell` / `headOp` / `tailOp`
  below, with an instrumented generator state counting producer invocations.
-/

namespace Prsly

/-- The result of `stream.tail()`: a new stream holding the remaining
values, or `null` (= `none`) when the stream has ended (JS
`Stream.prototype.tail`, which returns `null` once `head()` is `null`). -/
def tailS {α : Type} (s : List α) : Option (List α) :=
  match s with
  | [] => none
  | _ :: xs => some xs

/-- The JS parser signature `(stream) => [stream, value]`.  The returned
stream is `none` for `NO_MATCH`; the returned value is `none` for
`NO_VALUE`. -/
abbrev Parser (α β : Type) : Type := List α → Option (List α) × Option β

/-- JS `match(test_value_fn)`: reads `stream.head()` (which is `null`/`none`
at the end of the stream — the test function receives that raw value), and on
success returns `[stream.tail(), value]`; note that at the end of the stream
`stream.tail()` is `null = NO_MATCH`, so a test that accepts the end marker
still produces a `NO_MATCH` result there. -/
def matchP {α : Type} (test_value_fn : Option α → Bool) : Parser α α := fun s =>
  if test_value_fn s.head? then (tailS s, s.head?) else (none, none)

/-- JS `as(parser, mapping_fn)`: runs `parser`; if the result is `NO_MATCH`
or the value is `NO_VALUE`, returns `[next, NO_VALUE]`; otherwise applies
`mapping_fn` to the value. -/
def asP {α β γ : Type} (parser : Parser α β) (mapping_fn : β → γ) : Parser α γ := fun s =>
  match parser s with
  | (some next, some v) => (some next, some (mapping_fn v))
  | (next, _) => (next, none)

/-- JS `asFluent(parser)`: wraps `parser` with `as`, applying a
client-chosen `value_fn` (the mutable transform slot, identity by default and
rebound by `.as(f)`).  The model passes the active transform explicitly:
`asFluent p id` is the wrapper before any `.as` call, and
`asFluent p f` models `asFluent(p).as(f)`. -/
def asFluent {α β γ : Type} (parser : Parser α β) (value_fn : β → γ) : Parser α γ :=
  asP parser value_fn

/-- JS `is(test_value_fn)` (with the default identity transform). -/
def is {α : Type} (test_value_fn : Option α → Bool) : Parser α α :=
  asFluent (matchP test_value_fn) id

/-- JS `literal(expected)`: `is(actual => actual == expected)`. -/
def literal {α : Type} [DecidableEq α] (expected : α) : Parser α α :=
  is (fun actual => decide (actual = some expected))

/-- JS `any = is(x => true)`. -/
def any {α : Type} : Parser α α := is (fun _ => true)

/-- JS `none = is(x => false)` (named `noneP` here because `none` is taken by
`Option.none`). -/
def noneP {α : Type} : Parser α α := is (fun _ => false)

/-- JS `constant_value(c) = x => c`, one of the value-mapping helpers. -/
def constant_value {β γ : Type} (c : γ) : β → γ := fun _ => c

/-- The loop body of JS `sequence`: runs the parsers in order over the
advancing stream, accumulating every non-`NO_VALUE` value; any failure
returns `[NO_MATCH, NO_VALUE]` immediately. -/
def seqCore {α β : Type} (parsers : List (Parser α β)) (s : List α) (values : List β) :
    Option (List α) × Option (List β) :=
  match parsers with
  | [] => (some s, some values)
  | parser :: rest =>
    match parser s with
    | (none, _) => (none, none)
    | (some next, v) => seqCore rest next (values ++ v.toList)

/-- JS `sequence(p1, ..., pn)` (variadic in JS, a list here), with the
fluent wrapper and its default identity transform. -/
def sequence {α β : Type} (parsers : List (Parser α β)) : Parser α (List β) :=
  asFluent (fun s => seqCore parsers s []) id

/-- The `while (true)` loop of JS `many`, with explicit fuel: each
iteration applies `parser`; on failure it returns the stream from before
that attempt together with the accumulated values; on success it loops on
the parser's next stream.  `none` means the fuel ran out with the loop
still running — the JS loop diverges exactly when no fuel bound suffices
(a parser that keeps succeeding without shrinking the stream). -/
def manyCore {α β : Type} (parser : Parser α β) :
    Nat → List α → List β → Option (Option (List α) × Option (List β))
  | 0, _, _ => none
  | fuel + 1, s, values =>
    match parser s with
    | (none, _) => some (some s, some values)
    | (some next, v) => manyCore parser fuel next (values ++ v.toList)

/-- JS `many(parser)`.  A parser that consumes at least one token per
success makes the loop exit after at most `length + 1` attempts, so that
fuel is exact for every terminating run; when the JS loop would diverge
(the spec calls that a caller error) the model returns the `NO_MATCH`
pair. -/
def many {α β : Type} (parser : Parser α β) : Parser α (List β) :=
  asFluent (fun s => (manyCore parser (s.length + 1) s []).getD (none, none)) id

/-- The loop of JS `choice`: tries each parser on the *same* stream and
returns the first non-`NO_MATCH` result unchanged. -/
def choiceCore {α β : Type} (parsers : List (Parser α β)) (s : List α) :
    Option (List α) × Option β :=
  match parsers with
  | [] => (none, none)
  | parser :: rest =>
    match parser s with
    | (some next, v) => (some next, v)
    | (none, _) => choiceCore rest s

/-- JS `choice(p1, ..., pn)` (variadic in JS, a list here), with the fluent
wrapper and its default identity transform. -/
def choice {α β : Type} (parsers : List (Parser α β)) : Parser α β :=
  asFluent (fun s => choiceCore parsers s) id

/-- JS `optional(parser)`: on `NO_MATCH` returns the starting stream with
`NO_VALUE`, otherwise the parser's own result. -/
def optional {α β : Type} (parser : Parser α β) : Parser α β :=
  asFluent (fun s =>
    match parser s with
    | (none, _) => (some s, none)
    | r => r) id

/-- JS `at_end`: succeeds (with `NO_VALUE`, consuming nothing) iff the head
of the stream is `null`. -/
def at_end {α : Type} : Parser α Unit :=
  asFluent (fun s =>
    match s with
    | ([] : List α) => (some ([] : List α), (none : Option Unit))
    | _ => (none, none)) id

/-- The scan loop of JS `skip_to`: tries `parser` at the current position;
on failure pushes the head onto `skipped`, steps to the tail and retries,
breaking out with `[null, skipped]` (= a `NO_MATCH` result, since the null
stream *is* `NO_MATCH`) when the tail is `null`; on success returns the
current stream and the skipped values (`NO_VALUE` if none were skipped).
On the break path the JS code pushes the `null` head into `skipped` before
returning; that value rides along a `NO_MATCH` stream and is discarded by
the fluent wrapper, so the model returns `(none, none)` there. -/
def skipToCore {α β : Type} (parser : Parser α β) : List α → List α →
    Option (List α) × Option (List α)
  | [], skipped =>
    match (parser []).1 with
    | some _ => (some [], if skipped.isEmpty then none else some skipped)
    | none => (none, none)
  | x :: xs, skipped =>
    match (parser (x :: xs)).1 with
    | some _ => (some (x :: xs), if skipped.isEmpty then none else some skipped)
    | none => skipToCore parser xs (skipped ++ [x])

/-- JS `skip_to(parser)`, with the fluent wrapper and its default identity
transform. -/
def skip_to {α β : Type} (parser : Parser α β) : Parser α (List α) :=
  asFluent (fun s => skipToCore parser s []) id

/-- The heterogeneous `values` array built by JS `enclosed`: it may hold the
opening parser's value, the inner parser's value and the closing parser's
value, in that order, whichever are not `NO_VALUE`. -/
inductive EncVal (β γ δ : Type) : Type where
  | fromOpening (b : β)
  | fromInner (g : γ)
  | fromClosing (d : δ)
deriving DecidableEq

/-- The body of JS `enclosed(opening, inner, closing)`: match `opening`;
`skip_to(closing)`; run `inner` on a brand-new stream built from the skipped
values (`skipped || []`), requiring it to consume everything; finally apply
`closing` at the located position *without a failure check* and return its
stream together with the collected values. -/
def enclosedCore {α β γ δ : Type}
    (opening : Parser α β) (inner : Parser α γ) (closing : Parser α δ)
    (stream : List α) : Option (List α) × Option (List (EncVal β γ δ)) :=
  match opening stream with
  | (none, _) => (none, none)
  | (some stream_after_opening, value_from_opening) =>
    match skip_to closing stream_after_opening with
    | (none, _) => (none, none)
    | (some stream_up_to_closing, skipped) =>
      match inner (skipped.getD []) with
      | (none, _) => (none, none)
      | (some stream_after_inner, value_from_inner) =>
        if stream_after_inner.head?.isSome then (none, none)
        else
          match closing stream_up_to_closing with
          | (stream_after_closing, value_from_closing) =>
            (stream_after_closing,
              some ((value_from_opening.map EncVal.fromOpening).toList
                ++ (value_from_inner.map EncVal.fromInner).toList
                ++ (value_from_closing.map EncVal.fromClosing).toList))

/-- JS `enclosed(opening, inner, closing)`, with the fluent wrapper and its
default identity transform. -/
def enclosed {α β γ δ : Type}
    (opening : Parser α β) (inner : Parser α γ) (closing : Parser α δ) :
    Parser α (List (EncVal β γ δ)) :=
  asFluent (enclosedCore opening inner closing) id

/-- Lifts a parser result into `Option`: `some` of the pair when the parser
succeeded, `none` when it returned `NO_MATCH` (a helper for the spec-side
pipeline below). -/
def succeeds {α β : Type} (r : Option (List α) × Option β) : Option (List α × Option β) :=
  match r with
  | (some next, v) => some (next, v)
  | (none, _) => none

/-- Modelled from the spec (section 4.10 "Two-phase enclosed matching"):
"matches `opening`; then uses `skip_to(closing)` to locate ... everything up
to the first position where `closing` matches; then re-parses the *skipped*
tokens (built into a brand-new Stream from that exact collected sequence)
using `inner`, requiring `inner` to consume the entirety of that sub-stream;
then matches `closing` at the located position.  Fails if any of the four
steps fails, including if `inner` does not fully consume the extracted
span."  Each of the four steps is an explicit, failure-checked stage here;
the produced value is the collected values of the three parsers, in order,
skipping absent ones. -/
def enclosedSpec {α β γ δ : Type}
    (opening : Parser α β) (inner : Parser α γ) (closing : Parser α δ) :
    Parser α (List (EncVal β γ δ)) := fun s =>
  let pipeline : Option (List α × List (EncVal β γ δ)) := do
    -- step 1: match `opening`
    let (s1, v1) ← succeeds (opening s)
    -- step 2: locate, via `skip_to(closing)`, the first position where
    -- `closing` matches, collecting the skipped tokens
    let (s2, skipped) ← succeeds (skip_to closing s1)
    -- step 3: re-parse the skipped tokens on a brand-new stream built from
    -- that collected sequence, requiring `inner` to consume all of it
    let (s3, v3) ← succeeds (inner (skipped.getD []))
    if s3.head?.isSome then none
    else do
      -- step 4: match `closing` at the located position
      let (s4, v4) ← succeeds (closing s2)
      pure (s4, (v1.map EncVal.fromOpening).toList
        ++ (v3.map EncVal.fromInner).toList
        ++ (v4.map EncVal.fromClosing).toList)
  match pipeline with
  | some (s4, values) => (some s4, some values)
  | none => (none, none)

/-!
## The memoized Stream (JS `Stream` constructor, `head` and `tail` methods)

The constructor stores the generator function and initializes `lazy_head`
and `lazy_tail` to `undefined`.  The model makes those two lazy slots
explicit as a `Cell`:

* `lazyHead = none` is JS `undefined` (not yet computed);
  `lazyHead = some v` is a cached head, where `v : Option α` is the produced
  value (`none` being JS `null`, the end-of-stream marker);
* `lazyTail` likewise, caching `Option (Cell α)` where `none` is the `null`
  tail at end of stream and `some c` is the Stream object created by
  `new Stream(this.generator_fn)` (object identity is modelled as the value
  of the stored cell).

The client generator (`from_string` / `from_list`: a closure over a position
into a fixed sequence) is modelled by its remaining values, instrumented
with a counter of how many times it has been invoked.
-/

/-- The state of the client generator function: the values it has yet to
produce, plus an instrumentation counter of producer invocations. -/
structure GenState (α : Type) where
  remaining : List α
  calls : Nat
deriving DecidableEq

/-- One invocation of the generator function (JS `from_string` /
`from_list`): produces the next value, or `null` (`none`) once exhausted;
either way the invocation is counted. -/
def genNext {α : Type} (g : GenState α) : Option α × GenState α :=
  match g.remaining with
  | [] => (none, { remaining := [], calls := g.calls + 1 })
  | x :: xs => (some x, { remaining := xs, calls := g.calls + 1 })

/-- One JS `Stream` object: its two lazy slots (see the section comment). -/
inductive Cell (α : Type) : Type where
  | mk (lazyHead : Option (Option α)) (lazyTail : Option (Option (Cell α)))

/-- JS `Stream.prototype.head`: if `lazy_head` is still `undefined`, invoke
the generator once and cache the result; return the cached value.  The
result triple is (returned value, updated cell, updated generator state). -/
def headOp {α : Type} : Cell α → GenState α → Option α × Cell α × GenState α
  | .mk (some v) lt, g => (v, .mk (some v) lt, g)
  | .mk none lt, g =>
    match genNext g with
    | (v, g1) => (v, .mk (some v) lt, g1)

/-- JS `Stream.prototype.tail`: if `lazy_tail` is still `undefined`, compute
`this.head()`; when that is `null` cache `null` as the tail, otherwise cache
a brand-new Stream (fresh cell) sharing the same generator; return the
cached tail. -/
def tailOp {α : Type} : Cell α → GenState α → Option (Cell α) × Cell α × GenState α
  | .mk lh (some t), g => (t, .mk lh (some t), g)
  | .mk lh none, g =>
    match headOp (.mk lh none) g with
    | (none, .mk lh1 _, g1) => (none, .mk lh1 (some none), g1)
    | (some _, .mk lh1 _, g1) =>
      (some (.mk none none), .mk lh1 (some (some (.mk none none))), g1)

/-!
## Helper lemmas
-/

/-- The fluent wrapper never changes the stream component of a result. -/
theorem asP_fst {α β γ : Type} (p : Parser α β) (f : β → γ) (s : List α) :
    (asP p f s).1 = (p s).1 := by
  unfold asP
  rcases p s with ⟨_ | n, _ | v⟩ <;> rfl

/-- `skip_to`'s loop, when the parser matches at the current position:
return that position and the skipped values. -/
theorem skipToCore_found {α β : Type} (p : Parser α β) (s skipped : List α)
    (h : (p s).1 ≠ none) :
    skipToCore p s skipped = (some s, if skipped.isEmpty then none else some skipped) := by
  obtain ⟨t, ht⟩ := Option.ne_none_iff_exists'.mp h
  cases s <;> simp [skipToCore, ht]

/-- `skip_to`'s loop, when the parser fails mid-stream: push the head and
retry at the tail. -/
theorem skipToCore_step {α β : Type} (p : Parser α β) (x : α) (xs skipped : List α)
    (h : (p (x :: xs)).1 = none) :
    skipToCore p (x :: xs) skipped = skipToCore p xs (skipped ++ [x]) := by
  simp [skipToCore, h]

/-- `skip_to`'s loop, when the parser fails at the end of the stream: the
returned stream is the `null` tail, i.e. `NO_MATCH`. -/
theorem skipToCore_nil {α β : Type} (p : Parser α β) (skipped : List α)
    (h : (p []).1 = none) :
    skipToCore p [] skipped = (none, none) := by
  simp [skipToCore, h]

/-- Whenever `skip_to`'s loop returns a (non-null) stream, the parser it
scanned for succeeds at exactly that stream. -/
theorem skipToCore_success {α β : Type} (p : Parser α β) :
    ∀ (s skipped s' : List α) (v : Option (List α)),
      skipToCore p s skipped = (some s', v) → (p s').1 ≠ none := by
  intro s
  induction s with
  | nil =>
    intro skipped s' v h
    by_cases hp : (p []).1 = none
    · rw [skipToCore_nil p skipped hp] at h
      exact absurd (congrArg Prod.fst h) (by simp)
    · rw [skipToCore_found p [] skipped hp] at h
      have hs : some ([] : List α) = some s' := congrArg Prod.fst h
      rwa [← Option.some_inj.mp hs]
  | cons x xs ih =>
    intro skipped s' v h
    by_cases hp : (p (x :: xs)).1 = none
    · rw [skipToCore_step p x xs skipped hp] at h
      exact ih _ _ _ h
    · rw [skipToCore_found p (x :: xs) skipped hp] at h
      have hs : some (x :: xs) = some s' := congrArg Prod.fst h
      rwa [← Option.some_inj.mp hs]

/-- `skip_to`'s loop fails exactly when the parser fails at every scanned
position — every suffix of the stream, the empty one (the end-of-stream
position) included. -/
theorem skipToCore_none_iff {α β : Type} (p : Parser α β) :
    ∀ (s skipped : List α),
      (skipToCore p s skipped).1 = none ↔ ∀ i ≤ s.length, (p (s.drop i)).1 = none := by
  intro s
  induction s with
  | nil =>
    intro skipped
    by_cases hp : (p []).1 = none
    · rw [skipToCore_nil p skipped hp]
      simp [hp]
    · rw [skipToCore_found p [] skipped hp]
      simp only [Nat.le_zero, List.length_nil]
      constructor
      · intro h; exact absurd h (by simp)
      · intro h; exact absurd (by simpa using h 0 rfl) hp
  | cons x xs ih =>
    intro skipped
    by_cases hp : (p (x :: xs)).1 = none
    · rw [skipToCore_step p x xs skipped hp, ih]
      constructor
      · intro h i hi
        match i, hi with
        | 0, _ => simpa using hp
        | j + 1, hj => simpa using h j (by simpa using hj)
      · intro h i hi
        simpa using h (i + 1) (by simpa using hi)
    · rw [skipToCore_found p (x :: xs) skipped hp]
      constructor
      · intro h; exact absurd h (by simp)
      · intro h; exact absurd (by simpa using h 0 (by simp)) hp

/-- `skip_to`'s loop at the least matching position `i`: it returns the
stream dropped by `i` and the accumulator extended with the first `i`
tokens. -/
theorem skipToCore_min {α β : Type} (p : Parser α β) :
    ∀ (s : List α) (i : Nat) (skipped : List α),
      i ≤ s.length → (p (s.drop i)).1 ≠ none → (∀ j < i, (p (s.drop j)).1 = none) →
      skipToCore p s skipped =
        (some (s.drop i),
          if (skipped ++ s.take i).isEmpty then none else some (skipped ++ s.take i)) := by
  intro s
  induction s with
  | nil =>
    intro i skipped hi hhit _
    have hz : i = 0 := by simpa using hi
    subst hz
    simp only [List.drop_zero, List.take_zero, List.append_nil] at hhit ⊢
    exact skipToCore_found p [] skipped hhit
  | cons x xs ih =>
    intro i skipped hi hhit hmin
    match i with
    | 0 =>
      simp only [List.drop_zero, List.take_zero, List.append_nil] at hhit ⊢
      exact skipToCore_found p (x :: xs) skipped hhit
    | j + 1 =>
      have hp : (p (x :: xs)).1 = none := by simpa using hmin 0 (Nat.succ_pos j)
      rw [skipToCore_step p x xs skipped hp]
      have := ih j (skipped ++ [x]) (by simpa using hi) (by simpa using hhit)
        (fun k hk => by simpa using hmin (k + 1) (by omega))
      simpa [List.append_assoc] using this

/-- Whenever the loop of JS `many` exits (rather than running forever), it
exits by returning a stream and a collected-values list — never `NO_MATCH`. -/
theorem manyCore_some {α β : Type} (p : Parser α β) :
    ∀ (fuel : Nat) (s : List α) (values : List β) (r : Option (List α) × Option (List β)),
      manyCore p fuel s values = some r →
      ∃ s' vs, r = (some s', some vs) := by
  intro fuel
  induction fuel with
  | zero => intro s values r h; simp [manyCore] at h
  | succ n ih =>
    intro s values r h
    rcases hp : p s with ⟨rs, v⟩
    cases rs with
    | none =>
      rw [manyCore, hp] at h
      exact ⟨s, values, (Option.some_inj.mp h).symm⟩
    | some next =>
      rw [manyCore, hp] at h
      exact ih _ _ _ h

/-- Running `sequence`'s loop with a non-empty accumulator prepends the
accumulator to what the loop collects from scratch; failure is unaffected. -/
theorem seqCore_shape {α β : Type} (ps : List (Parser α β)) :
    ∀ (s : List α) (values : List β),
      (∃ s' vs, seqCore ps s values = (some s', some (values ++ vs)) ∧
        seqCore ps s [] = (some s', some vs)) ∨
      (seqCore ps s values = (none, none) ∧ seqCore ps s [] = (none, none)) := by
  induction ps with
  | nil =>
    intro s values
    exact Or.inl ⟨s, [], by simp [seqCore], by simp [seqCore]⟩
  | cons p rest ih =>
    intro s values
    rcases hp : p s with ⟨rs, v⟩
    cases rs with
    | none => exact Or.inr ⟨by rw [seqCore, hp], by rw [seqCore, hp]⟩
    | some next =>
      have h1 : seqCore (p :: rest) s values = seqCore rest next (values ++ v.toList) := by
        rw [seqCore, hp]
      have h2 : seqCore (p :: rest) s [] = seqCore rest next v.toList := by
        rw [seqCore, hp]; simp
      rcases ih next v.toList with ⟨s', vs, hv1, hv0⟩ | ⟨hv1, hv0⟩
      · rcases ih next (values ++ v.toList) with ⟨s'', vs', hw1, hw0⟩ | ⟨hw1, hw0⟩
        · rw [hv0] at hw0
          have hss : s' = s'' := by simpa using congrArg Prod.fst hw0
          have hvs : vs = vs' := by simpa using congrArg Prod.snd hw0
          refine Or.inl ⟨s', v.toList ++ vs, ?_, h2.trans hv1⟩
          rw [h1, hw1, ← hss, ← hvs]
          simp [List.append_assoc]
        · rw [hv0] at hw0; simp at hw0
      · rcases ih next (values ++ v.toList) with ⟨s'', vs', hw1, hw0⟩ | ⟨hw1, hw0⟩
        · rw [hv0] at hw0; simp at hw0
        · exact Or.inr ⟨h1.trans hw1, h2.trans hv1⟩

/-- Evaluation rule for the fluent wrapper, as a rewriting equation. -/
theorem asP_eq_match {α β γ : Type} (p : Parser α β) (f : β → γ) (s : List α) :
    asP p f s =
      match p s with
      | (some next, some v) => (some next, some (f v))
      | (next, _) => (next, none) := rfl

/-- Whenever the (fluent) `skip_to` parser succeeds, the parser it scanned
for succeeds at exactly the returned stream. -/
theorem skip_to_success {α β : Type} (p : Parser α β) (s s' : List α)
    (v : Option (List α)) (h : skip_to p s = (some s', v)) : (p s').1 ≠ none := by
  have h1 : (skip_to p s).1 = (skipToCore p s []).1 :=
    asP_fst (fun s => skipToCore p s []) id s
  rw [h] at h1
  rcases hc : skipToCore p s [] with ⟨rs, w⟩
  rw [hc] at h1
  cases rs with
  | none => exact absurd h1.symm (by simp)
  | some t =>
    have : t = s' := by simpa using h1.symm
    subst this
    exact skipToCore_success p s [] t w hc

/-- `choice`'s loop fails exactly when every alternative fails on the shared
starting stream. -/
theorem choiceCore_none_iff {α β : Type} (ps : List (Parser α β)) (s : List α) :
    (choiceCore ps s).1 = none ↔ ∀ p ∈ ps, (p s).1 = none := by
  induction ps with
  | nil => simp [choiceCore]
  | cons p rest ih =>
    rcases hp : p s with ⟨rs, v⟩
    cases rs with
    | none =>
      rw [choiceCore, hp]
      simp only [List.mem_cons]
      constructor
      · intro h q hq
        rcases hq with rfl | hq
        · simpa using congrArg Prod.fst hp
        · exact ih.mp h q hq
      · intro h
        exact ih.mpr fun q hq => h q (Or.inr hq)
    | some next =>
      rw [choiceCore, hp]
      simp only [List.mem_cons]
      constructor
      · intro h; exact absurd h (by simp)
      · intro h
        have := h p (Or.inl rfl)
        rw [hp] at this
        exact absurd this (by simp)

/-- The fluent wrapper returns `NO_VALUE` alongside a `NO_MATCH` stream. -/
theorem asP_snd_none {α β γ : Type} (p : Parser α β) (f : β → γ) (s : List α)
    (h : (asP p f s).1 = none) : (asP p f s).2 = none := by
  rw [asP_eq_match] at h ⊢
  rcases hp : p s with ⟨_ | n, _ | v⟩ <;> simp_all

/-- The body of `enclosed` either fails outright with `(NO_MATCH, NO_VALUE)`
or succeeds with a stream and a collected-values list: the unguarded final
`closing` application cannot fail, because `skip_to(closing)` only returns a
stream at which `closing` has already succeeded. -/
theorem enclosedCore_shape {α β γ δ : Type}
    (opening : Parser α β) (inner : Parser α γ) (closing : Parser α δ) (s : List α) :
    enclosedCore opening inner closing s = (none, none) ∨
    ∃ s' vs, enclosedCore opening inner closing s = (some s', some vs) := by
  rcases ho : opening s with ⟨_ | s1, v1⟩
  · exact Or.inl (by simp [enclosedCore, ho])
  · rcases hsk : skip_to closing s1 with ⟨_ | s2, skipped⟩
    · exact Or.inl (by simp [enclosedCore, ho, hsk])
    · rcases hin : inner (skipped.getD []) with ⟨_ | s3, v3⟩
      · exact Or.inl (by simp [enclosedCore, ho, hsk, hin])
      · by_cases hh : s3.head?.isSome
        · exact Or.inl (by simp [enclosedCore, ho, hsk, hin, hh])
        · have hc := skip_to_success closing s1 s2 skipped hsk
          rcases hcc : closing s2 with ⟨_ | s4, v4⟩
          · rw [hcc] at hc; exact absurd rfl hc
          · refine Or.inr ⟨s4, (v1.map EncVal.fromOpening).toList
              ++ (v3.map EncVal.fromInner).toList
              ++ (v4.map EncVal.fromClosing).toList, ?_⟩
            simp [enclosedCore, ho, hsk, hin, hh, hcc]

/-!
## Claim theorems
-/

/-- Claim C2: on every Stream instance, `head()` computes its token at most
once — the second (and every later) call returns the identical token with no
change to the stream cell and no further producer invocation — and a single
`head()` call invokes the producer at most once; `tail()` likewise is
computed at most once and every later call returns the identical
continuation; hence the producer is invoked at most once per logical
position no matter how often the same Stream is queried or replayed. -/
theorem stream_head_tail_memoized {α : Type} (c : Cell α) (g : GenState α) :
    (headOp (headOp c g).2.1 (headOp c g).2.2 = headOp c g) ∧
    ((headOp c g).2.2.calls ≤ g.calls + 1) ∧
    (tailOp (tailOp c g).2.1 (tailOp c g).2.2 = tailOp c g) ∧
    ((tailOp c g).2.2.calls ≤ g.calls + 1) := by
  rcases c with ⟨lh, lt⟩
  rcases g with ⟨rem, calls⟩
  rcases lh with _ | ⟨_ | v⟩ <;> rcases lt with _ | ⟨_ | t⟩ <;>
    rcases rem with _ | ⟨y, ys⟩ <;>
    refine ⟨?_, ?_, ?_, ?_⟩ <;> simp [headOp, tailOp, genNext]

/-- Claim C3: `skip_to(p)` fails exactly when `p` fails at every scanned
position (every suffix of the stream, the end-of-stream position included);
and when `p` first matches at position `i`, `skip_to(p)` succeeds returning
the stream positioned exactly there (the tokens `p` matches unconsumed)
together with the skipped tokens, or the absent-value sentinel when `i = 0`
and nothing was skipped. -/
theorem skip_to_characterization {α β : Type} (p : Parser α β) (s : List α) :
    ((skip_to p s).1 = none ↔ ∀ i ≤ s.length, (p (s.drop i)).1 = none) ∧
    (∀ i ≤ s.length, (p (s.drop i)).1 ≠ none → (∀ j < i, (p (s.drop j)).1 = none) →
      skip_to p s = (some (s.drop i), if i = 0 then none else some (s.take i))) := by
  constructor
  · have h1 : (skip_to p s).1 = (skipToCore p s []).1 :=
      asP_fst (fun s => skipToCore p s []) id s
    rw [h1]
    exact skipToCore_none_iff p s []
  · intro i hi hhit hmin
    have hc := skipToCore_min p s i [] hi hhit hmin
    simp only [List.nil_append] at hc
    show asP (fun s => skipToCore p s []) id s = _
    rw [asP_eq_match, hc]
    by_cases hz : i = 0
    · subst hz
      simp
    · have hne : s.take i ≠ [] := by
        intro hempty
        rcases s with _ | ⟨x, xs⟩
        · exact hz (by simpa using hi)
        · rcases i with _ | j
          · exact hz rfl
          · simp at hempty
      simp [hz, List.isEmpty_iff, hne]

/-- Claim C3 witness: the characterization applied at `literal 'a'` on the
stream `"+a"`, whose least matching position is 1. -/
theorem skip_to_characterization_witness :
    skip_to (literal 'a') (['+', 'a'] : List Char) = (some ['a'], some ['+']) := by
  have h := (skip_to_characterization (literal 'a') ['+', 'a']).2 1 (by decide)
    (by decide) (by decide)
  simpa using h

/-- Claim C4: `sequence` applies its sub-parsers strictly left-to-right over
the advancing stream; the empty sequence succeeds with the unchanged stream
and an empty collection; as soon as a sub-parser fails the whole sequence
returns `(NO_MATCH, NO_VALUE)` regardless of what the remaining sub-parsers
are (never a partially-advanced stream); and when the first sub-parser
succeeds the rest run on its remaining stream, the final result collecting
the values in order with absent-value-sentinel values skipped. -/
theorem sequence_characterization {α β : Type} (p : Parser α β)
    (rest : List (Parser α β)) (s s1 : List α) (v : Option β) :
    (sequence ([] : List (Parser α β)) s = (some s, some [])) ∧
    ((p s).1 = none → sequence (p :: rest) s = (none, none)) ∧
    (p s = (some s1, v) →
      (sequence (p :: rest) s).1 = (sequence rest s1).1 ∧
      ∀ s2 vs, sequence rest s1 = (some s2, some vs) →
        sequence (p :: rest) s = (some s2, some (v.toList ++ vs))) := by
  refine ⟨?_, ?_, ?_⟩
  · simp [sequence, asFluent, asP, seqCore]
  · intro h
    rcases hp : p s with ⟨rs, w⟩
    cases rs with
    | none => simp [sequence, asFluent, asP, seqCore, hp]
    | some next => rw [hp] at h; exact absurd h (by simp)
  · intro hp
    have hcons : seqCore (p :: rest) s [] = seqCore rest s1 v.toList := by
      rw [seqCore, hp]; simp
    constructor
    · have e1 : (sequence (p :: rest) s).1 = (seqCore (p :: rest) s []).1 :=
        asP_fst (fun s => seqCore (p :: rest) s []) id s
      have e2 : (sequence rest s1).1 = (seqCore rest s1 []).1 :=
        asP_fst (fun s => seqCore rest s []) id s1
      rw [e1, e2, hcons]
      rcases seqCore_shape rest s1 v.toList with ⟨s', vs, h1, h0⟩ | ⟨h1, h0⟩ <;>
        rw [h1, h0]
    · intro s2 vs hseq
      have hcore : seqCore rest s1 [] = (some s2, some vs) := by
        have := hseq
        rw [show sequence rest s1 = asP (fun s => seqCore rest s []) id s1 from rfl,
          asP_eq_match] at this
        rcases hc : seqCore rest s1 [] with ⟨rs, w⟩
        rw [hc] at this
        cases rs with
        | none => simp at this
        | some t =>
          cases w with
          | none => simp at this
          | some wv => simpa using this
      rcases seqCore_shape rest s1 v.toList with ⟨s', vs', h1, h0⟩ | ⟨h1, h0⟩
      · rw [hcore] at h0
        have hss : s2 = s' := by simpa using congrArg Prod.fst h0
        have hvs : vs = vs' := by simpa using congrArg Prod.snd h0
        subst hss hvs
        show asP (fun s => seqCore (p :: rest) s []) id s = _
        rw [asP_eq_match, hcons, h1]
        simp
      · rw [hcore] at h0; simp at h0

/-- Claim C4 witness: the characterization applied at concrete parsers — a
failing first sub-parser on `"xb"` and a fully succeeding pair on `"ab"`. -/
theorem sequence_characterization_witness :
    sequence [literal 'a', literal 'b'] (['x', 'b'] : List Char) = (none, none) ∧
    sequence [literal 'a', literal 'b'] (['a', 'b'] : List Char)
      = (some [], some ['a', 'b']) := by
  constructor
  · exact (sequence_characterization (literal 'a') [literal 'b'] ['x', 'b'] []
      (none : Option Char)).2.1 (by decide)
  · exact ((sequence_characterization (literal 'a') [literal 'b'] ['a', 'b'] ['b']
      (some 'a')).2.2 (by decide)).2 [] ['b'] (by decide)

/-- Claim C5: whenever the loop of `many(p)` exits (the JS loop runs forever
when `p` keeps succeeding without consuming — a caller error per the spec),
it exits successfully, returning the stream from before the first failing
attempt and the values collected so far; the two step equations make the
greedy collection explicit, and on inputs carrying zero, one and three
consecutive matches of `literal 'a'` the collections have length 0, 1 and 3
with the correct remaining stream. -/
theorem many_never_fails {α β : Type} (p : Parser α β) (fuel : Nat) (s : List α)
    (values : List β) (r : Option (List α) × Option (List β)) :
    (manyCore p fuel s values = some r → ∃ s' vs, r = (some s', some vs)) ∧
    ((p s).1 = none → manyCore p (fuel + 1) s values = some (some s, some values)) ∧
    (∀ s1 v, p s = (some s1, v) →
      manyCore p (fuel + 1) s values = manyCore p fuel s1 (values ++ v.toList)) ∧
    (many (literal 'a') ['b'] = (some ['b'], some []) ∧
      many (literal 'a') ['a', 'b'] = (some ['b'], some ['a']) ∧
      many (literal 'a') ['a', 'a', 'a', 'b'] = (some ['b'], some ['a', 'a', 'a'])) := by
  refine ⟨manyCore_some p fuel s values r, ?_, ?_, by decide, by decide, by decide⟩
  · intro h
    rcases hp : p s with ⟨_ | rs, w⟩
    · rw [manyCore, hp]
    · rw [hp] at h; exact absurd h (by simp)
  · intro s1 v hp
    rw [manyCore, hp]

/-- Claim C5 witness: the general conjuncts applied at `literal 'a'` on the
stream `"ab"`. -/
theorem many_never_fails_witness :
    (∃ s' vs, ((some ['b'], some ['a']) : Option (List Char) × Option (List Char))
      = (some s', some vs)) ∧
    manyCore (literal 'a') 2 (['b'] : List Char) [] = some (some ['b'], some []) ∧
    manyCore (literal 'a') 2 (['a', 'b'] : List Char) []
      = manyCore (literal 'a') 1 ['b'] ['a'] := by
  refine ⟨?_, ?_, ?_⟩
  · exact (many_never_fails (literal 'a') 2 ['a', 'b'] [] (some ['b'], some ['a'])).1
      (by decide)
  · exact (many_never_fails (literal 'a') 1 ['b'] []
      (some ['b'], some [])).2.1 (by decide)
  · exact (many_never_fails (literal 'a') 1 ['a', 'b'] []
      (some ['b'], some ['a'])).2.2.1 ['b'] (some 'a') (by decide)

/-- Claim C6: `choice` tries its alternatives strictly in order against the
same starting stream: the empty choice fails; when the first alternative
succeeds, its result (value transform included) is returned unchanged and
no later alternative is consulted; when it fails, the remaining alternatives
decide; `choice` fails exactly when every alternative fails; and with two
parsers for the same literal carrying different transforms, the first
transform's output is produced. -/
theorem choice_first_wins {α β : Type} (p : Parser α β) (ps : List (Parser α β))
    (s : List α) :
    (choice ([] : List (Parser α β)) s = (none, none)) ∧
    ((p s).1 ≠ none → choice (p :: ps) s = p s) ∧
    ((p s).1 = none → choice (p :: ps) s = choice ps s) ∧
    ((choice (p :: ps) s).1 = none ↔ ∀ q ∈ p :: ps, (q s).1 = none) ∧
    (choice [asFluent (matchP (fun v => decide (v = some 'x'))) (constant_value 'A'),
        asFluent (matchP (fun v => decide (v = some 'x'))) (constant_value 'B')]
        ['x'] = (some [], some 'A')) := by
  refine ⟨by simp [choice, asFluent, asP, choiceCore], ?_, ?_, ?_, by decide⟩
  · intro h
    rcases hp : p s with ⟨_ | rs, w⟩
    · rw [hp] at h; exact absurd rfl h
    · have hc : choiceCore (p :: ps) s = (some rs, w) := by rw [choiceCore, hp]
      cases w <;> simp [choice, asFluent, asP, hc, hp]
  · intro h
    rcases hp : p s with ⟨_ | rs, w⟩
    · have hc : choiceCore (p :: ps) s = choiceCore ps s := by rw [choiceCore, hp]
      simp [choice, asFluent, asP, hc]
    · rw [hp] at h; exact absurd h (by simp)
  · have e : (choice (p :: ps) s).1 = (choiceCore (p :: ps) s).1 :=
      asP_fst (fun s => choiceCore (p :: ps) s) id s
    rw [e]
    exact choiceCore_none_iff (p :: ps) s

/-- Claim C6 witness: the conditional conjuncts applied at concrete
parsers — `literal 'a'` succeeding and `literal 'b'` failing on `"a"`. -/
theorem choice_first_wins_witness :
    choice [literal 'a', literal 'b'] (['a'] : List Char) = literal 'a' ['a'] ∧
    choice [literal 'b', literal 'a'] (['a'] : List Char)
      = choice [literal 'a'] ['a'] := by
  constructor
  · exact (choice_first_wins (literal 'a') [literal 'b'] ['a']).2.1 (by decide)
  · exact (choice_first_wins (literal 'b') [literal 'a'] ['a']).2.2.1 (by decide)

/-- Claim C7 counterexample: on the stream positioned at the end-of-sequence
marker, `any` does *not* succeed: the test accepts the `null` head, but
`stream.tail()` of an ended stream is the `null` stream — the very value of
the `NO_MATCH` sentinel — so the result is a failure. -/
theorem any_fails_at_end_marker : (any : Parser Char Char) [] = (none, none) := by
  decide

/-- Claim C7 (amended): `any` succeeds, consuming exactly one token, on
every stream whose head is not the end-of-sequence marker; on a stream
positioned at the end-of-sequence marker it fails (the consumed tail is the
`null` stream, which is the `NO_MATCH` sentinel). -/
theorem any_consumes_one {α : Type} (x : α) (xs : List α) :
    any (x :: xs) = (some xs, some x) ∧ (any : Parser α α) [] = (none, none) :=
  ⟨rfl, rfl⟩

/-- Claim C8: `literal t` fully matches the single-token stream `[t]`,
producing `t` as its value, and fails on `[u]` whenever `u ≠ t`. -/
theorem literal_matches_exactly {α : Type} [DecidableEq α] (t u : α) :
    literal t [t] = (some [], some t) ∧ (u ≠ t → literal t [u] = (none, none)) := by
  constructor
  · simp [literal, is, asFluent, asP, matchP, tailS]
  · intro h
    simp [literal, is, asFluent, asP, matchP, tailS, h]

/-- Claim C8 witness: the theorem applied at the tokens `'a'` and `'b'`. -/
theorem literal_matches_exactly_witness :
    literal 'a' ['a'] = (some [], some 'a') ∧ literal 'a' ['b'] = (none, none) :=
  ⟨(literal_matches_exactly 'a' 'b').1, (literal_matches_exactly 'a' 'b').2 (by decide)⟩

/-- Claim C9: when the wrapped parser succeeds with a value, `as(p, f)`
produces exactly `f` of the value `p` alone produced; when `p` fails, or
when `p`'s value is the absent-value sentinel, `as(p, f)` produces the
absent-value sentinel, and the transform is never invoked — the result does
not depend on `f` at all. -/
theorem as_round_trip {α β γ : Type} (p : Parser α β) (f : β → γ) (s : List α) :
    (∀ s' v, p s = (some s', some v) → asP p f s = (some s', some (f v))) ∧
    ((p s).1 = none → asP p f s = (none, none) ∧ ∀ g : β → γ, asP p f s = asP p g s) ∧
    ((p s).2 = none → asP p f s = ((p s).1, none) ∧ ∀ g : β → γ, asP p f s = asP p g s) := by
  refine ⟨?_, ?_, ?_⟩
  · intro s' v hp
    rw [asP_eq_match, hp]
  · intro h
    rcases hp : p s with ⟨_ | rs, _ | w⟩
    · exact ⟨by rw [asP_eq_match, hp], fun g => by rw [asP_eq_match, asP_eq_match, hp]⟩
    · exact ⟨by rw [asP_eq_match, hp], fun g => by rw [asP_eq_match, asP_eq_match, hp]⟩
    · rw [hp] at h; exact absurd h (by simp)
    · rw [hp] at h; exact absurd h (by simp)
  · intro h
    rcases hp : p s with ⟨_ | rs, _ | w⟩
    · exact ⟨by rw [asP_eq_match, hp], fun g => by rw [asP_eq_match, asP_eq_match, hp]⟩
    · rw [hp] at h; exact absurd h (by simp)
    · exact ⟨by rw [asP_eq_match, hp], fun g => by rw [asP_eq_match, asP_eq_match, hp]⟩
    · rw [hp] at h; exact absurd h (by simp)

/-- Claim C9 witness: the three conjuncts applied at `literal 'a'` with a
constant transform, on a succeeding, a failing, and a no-value run. -/
theorem as_round_trip_witness :
    asP (literal 'a') (constant_value 'Z') ['a'] = (some [], some 'Z') ∧
    asP (literal 'a') (constant_value 'Z') ['b'] = (none, none) ∧
    asP (at_end : Parser Char Unit) (constant_value 'Z') []
      = ((at_end ([] : List Char)).1, none) := by
  refine ⟨?_, ?_, ?_⟩
  · exact (as_round_trip (literal 'a') (constant_value 'Z') ['a']).1 [] 'a' (by decide)
  · exact ((as_round_trip (literal 'a') (constant_value 'Z') ['b']).2.1 (by decide)).1
  · exact ((as_round_trip (at_end : Parser Char Unit)
      (constant_value 'Z') []).2.2 (by decide)).1

/-- Claim C10: the final `closing` match inside `enclosed` is performed
without a failure check, yet its failure branch is unreachable:
`skip_to(closing)` only succeeds by returning a stream at which `closing`
has already succeeded, and parsers of this model are deterministic functions
of the (memoized, hence replay-identical) stream, so re-applying `closing`
there succeeds again; consequently neither the body of `enclosed` nor the
wrapped parser ever returns the `NO_MATCH` sentinel paired with a collected
(non-absent) value. -/
theorem enclosed_closing_replay_safe {α β γ δ : Type}
    (opening : Parser α β) (inner : Parser α γ) (closing : Parser α δ) (s : List α) :
    (∀ s' v, skip_to closing s = (some s', v) → (closing s').1 ≠ none) ∧
    ((enclosedCore opening inner closing s).1 = none →
      (enclosedCore opening inner closing s).2 = none) ∧
    ((enclosed opening inner closing s).1 = none →
      (enclosed opening inner closing s).2 = none) := by
  refine ⟨fun s' v h => skip_to_success closing s s' v h, ?_, ?_⟩
  · intro h
    rcases enclosedCore_shape opening inner closing s with he | ⟨s', vs, he⟩
    · rw [he]
    · rw [he] at h; exact absurd h (by simp)
  · intro h
    exact asP_snd_none (enclosedCore opening inner closing) id s h

/-- Claim C10 witness: the conjuncts applied at concrete parsers — a
successful `skip_to` run on `"+]"` and a failing `enclosed` run on `"x"`. -/
theorem enclosed_closing_replay_safe_witness :
    (literal ']' ([']'] : List Char)).1 ≠ none ∧
    (enclosedCore (literal '[') (any : Parser Char Char) (literal ']') ['x']).2
      = none := by
  constructor
  · exact (enclosed_closing_replay_safe (literal '[') (any : Parser Char Char)
      (literal ']') ['+', ']']).1 [']'] (some ['+']) (by decide)
  · exact (enclosed_closing_replay_safe (literal '[') (any : Parser Char Char)
      (literal ']') ['x']).2.1 (by decide)

/-- Claim C1: `enclosed(opening, inner, closing)` implements exactly the
four-stage pipeline the spec describes — match `opening`; locate, via
`skip_to(closing)`, the first position where `closing` matches; re-parse
the skipped tokens on a brand-new stream built from that collected sequence
with `inner`, requiring full consumption; match `closing` at the located
position; failing whenever any stage fails — it equals the spec-side
pipeline `enclosedSpec` on every input.  With opening/closing parsers for
`"[["` and `"]]"` and an inner parser matching any sequence of tokens, the
input `"[[^][^]]"` is fully matched while `"[[++]]+]]"` is not. -/
theorem enclosed_matches_spec_pipeline :
    (∀ (α β γ δ : Type) (opening : Parser α β) (inner : Parser α γ)
      (closing : Parser α δ) (s : List α),
      enclosed opening inner closing s = enclosedSpec opening inner closing s) ∧
    ((enclosed (sequence [literal '[', literal '[']) (many any)
      (sequence [literal ']', literal ']'])
      ['[', '[', '^', ']', '[', '^', ']', ']']).1 = some []) ∧
    ((enclosed (sequence [literal '[', literal '[']) (many any)
      (sequence [literal ']', literal ']'])
      ['[', '[', '+', '+', ']', ']', '+', ']', ']']).1 ≠ some []) := by
  refine ⟨?_, by decide, by decide⟩
  intro α β γ δ opening inner closing s
  rcases ho : opening s with ⟨_ | s1, v1⟩
  · simp [enclosed, asFluent, asP, enclosedCore, enclosedSpec, succeeds, ho]
  · rcases hsk : skip_to closing s1 with ⟨_ | s2, skipped⟩
    · simp [enclosed, asFluent, asP, enclosedCore, enclosedSpec, succeeds,
        ho, hsk]
    · rcases hin : inner (skipped.getD []) with ⟨_ | s3, v3⟩
      · simp [enclosed, asFluent, asP, enclosedCore, enclosedSpec, succeeds,
          ho, hsk, hin]
      · by_cases hh : s3.head?.isSome
        · simp [enclosed, asFluent, asP, enclosedCore, enclosedSpec, succeeds,
            ho, hsk, hin, hh]
        · rcases hcc : closing s2 with ⟨_ | s4, v4⟩
          · simp [enclosed, asFluent, asP, enclosedCore, enclosedSpec, succeeds,
              ho, hsk, hin, hh, hcc]
          · simp [enclosed, asFluent, asP, enclosedCore, enclosedSpec, succeeds,
              ho, hsk, hin, hh, hcc]

end Prsly
